import Mathlib

/-!
Verification of the Spontaneous-Broadcast lifecycle engine.

A shallow embedding of the broadcast controllers (`controllers/broadcast.ts`),
the Mongoose schema (`models/broadcast.ts`) and the cleanup worker
(`workers/cleanup.ts`). Timestamps are naturals (milliseconds since the
epoch); ObjectIds are naturals; the MongoDB collection is a list of
documents; each handler takes the current time `now` explicitly (the
source calls `new Date()` at the corresponding point) and returns its
result, the successor state of the collection, and the ordered trace of
side effects (store writes, Redis cache deletion, Bull queue enqueue) it
performed, in source order.
-/

namespace SpontaneousBroadcast

/-- The `status` enum of the embedded `JoinRequestSchema`:
`'pending' | 'accepted' | 'rejected'`. -/
inductive JStatus
  | pending
  | accepted
  | rejected
deriving DecidableEq, Repr

/-- The `status` enum of `BroadcastSchema`: `'active' | 'expired'`. -/
inductive BStatus
  | active
  | expired
deriving DecidableEq, Repr

/-- An embedded join-request subdocument (`IJoinRequest`): the requesting
user's ObjectId and the request status. -/
structure JoinRequest where
  user : Nat
  status : JStatus
deriving DecidableEq, Repr

/-- A broadcast document (`IBroadcast`): `_id`, `title`, `description`,
`creator`, `createdAt` (defaulted to `Date.now`), `expiresAt`, `status`
and the embedded `joinRequests` array. -/
structure Broadcast where
  id : Nat
  title : String
  description : String
  creator : Nat
  createdAt : Nat
  expiresAt : Nat
  status : BStatus
  joinRequests : List JoinRequest
deriving DecidableEq, Repr

/-- One observable side effect of a handler, in the order the source
performs them: a document save (`broadcast.save()` / the insert performed
by `new Broadcast(...).save()`), a document removal
(`Broadcast.findByIdAndDelete`), the sweeper's conditional
`Broadcast.updateMany` at time `now`, the deletion of the Redis key
`'activeBroadcasts'` (`redisClient.del('activeBroadcasts')`), and the
Bull enqueue `broadcastNotificationQueue.add({broadcastId, requesterId})`. -/
inductive Effect
  | save (b : Broadcast)
  | removeDoc (broadcastId : Nat)
  | expireSweep (now : Nat)
  | cacheDel
  | enqueue (broadcastId : Nat) (requesterId : Nat)
deriving DecidableEq, Repr

/-- `Broadcast.findById`: the first document of the collection with the
given id (MongoDB ids are unique; first-match is the faithful reading). -/
def findById (db : List Broadcast) (broadcastId : Nat) : Option Broadcast :=
  db.find? (fun b => b.id == broadcastId)

/-- `broadcast.save()` on a fetched document: the stored document with the
same id is replaced by the modified one; every other document is kept. -/
def saveDoc (db : List Broadcast) (b : Broadcast) : List Broadcast :=
  db.map (fun x => if x.id == b.id then b else x)

/-- Result of `createBroadcast` (`POST /api/broadcasts`), after zod
validation and with an authenticated caller: 400 `'expiresAt must be in
the future'`, or 201 with the new document. -/
inductive CreateResult
  | inThePast
  | success
deriving DecidableEq, Repr

/-- `createBroadcast`: rejects a non-future `expiresAt`, otherwise inserts
`{title, description, creator, expiresAt, status: 'active',
joinRequests: []}` and then deletes the `'activeBroadcasts'` cache key.
`newId` is the ObjectId MongoDB assigns to the insert; `createdAt`
defaults to the current time per the schema. -/
def createBroadcast (now creator newId : Nat) (title description : String)
    (expiresAt : Nat) (db : List Broadcast) :
    CreateResult × List Broadcast × List Effect :=
  if expiresAt ≤ now then
    (.inThePast, db, [])
  else
    let b : Broadcast :=
      ⟨newId, title, description, creator, now, expiresAt, .active, []⟩
    (.success, db ++ [b], [.save b, .cacheDel])

/-- Result of `joinBroadcast` (`POST /api/broadcasts/:id/join`) with an
authenticated caller: 404, 400 `'Broadcast has expired'`, 400
`'Join request already sent'`, or 200. -/
inductive JoinResult
  | notFound
  | expired
  | alreadyRequested
  | success
deriving DecidableEq, Repr

/-- `joinBroadcast`: fetches the broadcast; rejects when
`broadcast.expiresAt <= new Date() || broadcast.status === 'expired'`;
rejects when `broadcast.joinRequests.find(r => r.user === userId)` hits;
otherwise pushes `{user: userId, status: 'pending'}`, saves, and enqueues
`{broadcastId, requesterId: userId}` on the notification queue. -/
def joinBroadcast (now userId broadcastId : Nat) (db : List Broadcast) :
    JoinResult × List Broadcast × List Effect :=
  match findById db broadcastId with
  | none => (.notFound, db, [])
  | some b =>
    if b.expiresAt ≤ now ∨ b.status = .expired then
      (.expired, db, [])
    else
      match b.joinRequests.find? (fun r => r.user == userId) with
      | some _ => (.alreadyRequested, db, [])
      | none =>
        let b' : Broadcast :=
          { b with joinRequests := b.joinRequests ++ [⟨userId, .pending⟩] }
        (.success, saveDoc db b', [.save b', .enqueue broadcastId userId])

/-- The decision body accepted by `updateJoinRequestSchema`:
`z.enum(['accepted', 'rejected'])`. -/
inductive Decision
  | accepted
  | rejected
deriving DecidableEq, Repr

/-- The join-request status a decision writes. -/
def Decision.toJStatus : Decision → JStatus
  | .accepted => .accepted
  | .rejected => .rejected

/-- Result of `updateJoinRequest` (`PUT /api/broadcasts/:id/requests/:userId`):
404 broadcast, 403, 404 join request, or 200. -/
inductive DecideResult
  | notFound
  | forbidden
  | requestNotFound
  | success
deriving DecidableEq, Repr

/-- `joinRequest.status = status` through the reference returned by
`broadcast.joinRequests.find(...)`: only the first matching subdocument
is mutated. -/
def setFirstRequestStatus (rs : List JoinRequest) (requesterId : Nat)
    (st : JStatus) : List JoinRequest :=
  match rs with
  | [] => []
  | r :: rest =>
    if r.user == requesterId then { r with status := st } :: rest
    else r :: setFirstRequestStatus rest requesterId st

/-- `updateJoinRequest`: fetches the broadcast; 403 unless the caller is
the creator; 404 unless `broadcast.joinRequests.find(r => r.user ===
requesterId)` hits; otherwise assigns the decided status to that join
request and saves. There is no guard on the request's previous status. -/
def updateJoinRequest (callerId broadcastId requesterId : Nat) (d : Decision)
    (db : List Broadcast) : DecideResult × List Broadcast × List Effect :=
  match findById db broadcastId with
  | none => (.notFound, db, [])
  | some b =>
    if b.creator ≠ callerId then
      (.forbidden, db, [])
    else
      match b.joinRequests.find? (fun r => r.user == requesterId) with
      | none => (.requestNotFound, db, [])
      | some _ =>
        let b' : Broadcast :=
          { b with joinRequests :=
              setFirstRequestStatus b.joinRequests requesterId d.toJStatus }
        (.success, saveDoc db b', [.save b'])

/-- Result of `deleteBroadcast` (`DELETE /api/broadcasts/:id`) with an
authenticated caller: 404, 403, or 200. -/
inductive DeleteResult
  | notFound
  | forbidden
  | success
deriving DecidableEq, Repr

/-- `deleteBroadcast`: fetches the broadcast; 403 unless the caller is the
creator; otherwise `Broadcast.findByIdAndDelete(broadcastId)`. No cache
interaction appears in the handler. -/
def deleteBroadcast (callerId broadcastId : Nat) (db : List Broadcast) :
    DeleteResult × List Broadcast × List Effect :=
  match findById db broadcastId with
  | none => (.notFound, db, [])
  | some b =>
    if b.creator ≠ callerId then
      (.forbidden, db, [])
    else
      (.success, db.filter (fun x => !(x.id == broadcastId)),
        [.removeDoc broadcastId])

/-- The partial body accepted by `updateBroadcastSchema`: optional
`title`, `description`, `expiresAt`. -/
structure UpdateData where
  title : Option String
  description : Option String
  expiresAt : Option Nat
deriving DecidableEq, Repr

/-- Result of `updateBroadcast` (`PUT /api/broadcasts/:id`): 404, 403,
400 `'expiresAt must be in the future'`, or 200. -/
inductive UpdateResult
  | notFound
  | forbidden
  | inThePast
  | success
deriving DecidableEq, Repr

/-- `updateBroadcast`: fetches the broadcast; 403 unless the caller is the
creator; copies `title` and `description` when supplied; when `expiresAt`
is supplied, rejects it unless strictly future (returning before any
save, so nothing is persisted) and otherwise sets it; finally saves. The
handler performs no cache interaction and never touches `status`,
`creator`, `createdAt` or `joinRequests`. -/
def updateBroadcast (now callerId broadcastId : Nat) (u : UpdateData)
    (db : List Broadcast) : UpdateResult × List Broadcast × List Effect :=
  match findById db broadcastId with
  | none => (.notFound, db, [])
  | some b =>
    if b.creator ≠ callerId then
      (.forbidden, db, [])
    else
      let b1 := match u.title with
        | some t => { b with title := t }
        | none => b
      let b2 := match u.description with
        | some d => { b1 with description := d }
        | none => b1
      match u.expiresAt with
      | some e =>
        if e ≤ now then (.inThePast, db, [])
        else
          let b3 := { b2 with expiresAt := e }
          (.success, saveDoc db b3, [.save b3])
      | none => (.success, saveDoc db b2, [.save b2])

/-- `getBroadcastDetails` (`GET /api/broadcasts/:id`), the uncached
authoritative read: the fetched document or 404. -/
def getBroadcastDetails (db : List Broadcast) (broadcastId : Nat) :
    Option Broadcast :=
  findById db broadcastId

/-- `cleanupExpiredBroadcasts` (the sweeper):
`Broadcast.updateMany({expiresAt: {$lte: now}, status: 'active'},
{$set: {status: 'expired'}})` — a single conditional, set-based update
applied document-wise by the store. It touches no other field and never
interacts with the cache or the queue. -/
def cleanupExpiredBroadcasts (now : Nat) (db : List Broadcast) :
    List Broadcast × List Effect :=
  (db.map (fun b =>
      if b.expiresAt ≤ now ∧ b.status = .active then
        { b with status := .expired }
      else b),
    [.expireSweep now])

/-- The store behaviour declared by the schema's TTL index
`BroadcastSchema.index({expiresAt: 1}, {expireAfterSeconds: 0})`: when
the reaper runs at time `now`, every document whose `expiresAt` has been
reached is physically removed. -/
def ttlReap (now : Nat) (db : List Broadcast) : List Broadcast :=
  db.filter (fun b => now < b.expiresAt)

/-- The read-and-validate phase of `joinBroadcast` against a snapshot of
the collection: the fetch, the expiry check and the duplicate check,
returning the pending join request the handler will append when every
check passes. Splitting the handler at the `await broadcast.save()`
boundary models two requests racing between their reads and their
writes. -/
def joinBroadcastCheck (now userId broadcastId : Nat)
    (db : List Broadcast) : Option JoinRequest :=
  match findById db broadcastId with
  | none => none
  | some b =>
    if b.expiresAt ≤ now ∨ b.status = .expired then none
    else
      match b.joinRequests.find? (fun r => r.user == userId) with
      | some _ => none
      | none => some ⟨userId, .pending⟩

/-- The commit phase of `joinBroadcast`: Mongoose turns the in-memory
`joinRequests.push` into a `$push` update on the stored document when
`save()` runs, appending the new subdocument to whatever array the store
holds at commit time. -/
def joinBroadcastCommit (broadcastId : Nat) (r : JoinRequest)
    (db : List Broadcast) : List Broadcast :=
  db.map (fun b =>
    if b.id == broadcastId then
      { b with joinRequests := b.joinRequests ++ [r] }
    else b)

/-- At most one stored JoinRequest per (broadcast, user) pair — the
uniqueness invariant of the specification. -/
def atMostOnePerUser (db : List Broadcast) : Prop :=
  ∀ b ∈ db, ∀ u : Nat,
    (b.joinRequests.filter (fun r => r.user == u)).length ≤ 1

/-! ## Store lemmas -/

theorem findById_mem (db : List Broadcast) (i : Nat) (b : Broadcast)
    (h : findById db i = some b) : b ∈ db ∧ b.id = i := by
  unfold findById at h
  refine ⟨List.mem_of_find?_eq_some h, ?_⟩
  have hp := List.find?_some h
  simpa using hp

theorem findById_saveDoc_ne (db : List Broadcast) (b : Broadcast) (j : Nat)
    (hj : ¬ j = b.id) : findById (saveDoc db b) j = findById db j := by
  induction db with
  | nil => rfl
  | cons x xs ih =>
    have htail : findById (saveDoc xs b) j = findById xs j := ih
    unfold findById saveDoc at htail ⊢
    simp only [List.map_cons]
    by_cases hx : x.id = b.id
    · rw [if_pos (by simp [hx])]
      rw [List.find?_cons_of_neg _ (by simp; omega),
        List.find?_cons_of_neg _ (by simp [hx]; omega)]
      exact htail
    · rw [if_neg (by simp [hx])]
      by_cases hxj : x.id = j
      · rw [List.find?_cons_of_pos _ (by simp [hxj]),
          List.find?_cons_of_pos _ (by simp [hxj])]
      · rw [List.find?_cons_of_neg _ (by simp [hxj]),
          List.find?_cons_of_neg _ (by simp [hxj])]
        exact htail

theorem findById_saveDoc_self (db : List Broadcast) (i : Nat) (b b' : Broadcast)
    (h : findById db i = some b) (hid : b'.id = i) :
    findById (saveDoc db b') i = some b' := by
  induction db with
  | nil => simp [findById] at h
  | cons x xs ih =>
    unfold findById at h
    unfold findById saveDoc at ih ⊢
    simp only [List.map_cons]
    by_cases hx : x.id = i
    · rw [if_pos (by simp [hx, hid])]
      rw [List.find?_cons_of_pos _ (by simp [hid])]
    · rw [if_neg (by simp [hid]; omega)]
      rw [List.find?_cons_of_neg _ (by simp [hx])]
      rw [List.find?_cons_of_neg _ (by simp [hx])] at h
      exact ih h

/-- Every trace of `updateBroadcast` is empty or a single document save:
the handler performs no cache or queue interaction. -/
theorem updateBroadcast_trace (now callerId broadcastId : Nat) (u : UpdateData)
    (db : List Broadcast) :
    (updateBroadcast now callerId broadcastId u db).2.2 = [] ∨
    ∃ b, (updateBroadcast now callerId broadcastId u db).2.2 =
      [Effect.save b] := by
  unfold updateBroadcast
  cases hf : findById db broadcastId with
  | none => simp
  | some b =>
    simp only
    split
    · simp
    · cases hu : u.expiresAt with
      | none => simp
      | some e =>
        simp only
        split <;> simp

/-! ## C1 — cache invalidation on listing writes -/

/-- C1, counterexample: a successful Update by the creator of an active
broadcast performs no deletion of the cached `'activeBroadcasts'` key —
its effect trace contains no cache deletion at all. -/
theorem C1_counterexample :
    (updateBroadcast 10 7 1 ⟨some "t2", none, none⟩
        [⟨1, "t", "d", 7, 0, 100, .active, []⟩]).1 = .success ∧
    Effect.cacheDel ∉
      (updateBroadcast 10 7 1 ⟨some "t2", none, none⟩
        [⟨1, "t", "d", 7, 0, 100, .active, []⟩]).2.2 := by
  decide

/-- C1, amended: of the four listing-changing writes, only Create deletes
the cached `'activeBroadcasts'` key on success; Update, Delete and the
Sweeper's expiry transition never perform a cache deletion. -/
theorem C1_listing_writes_cache :
    (∀ now creator newId t d e (db : List Broadcast),
       (createBroadcast now creator newId t d e db).1 = .success →
       Effect.cacheDel ∈ (createBroadcast now creator newId t d e db).2.2) ∧
    (∀ now callerId broadcastId u (db : List Broadcast),
       Effect.cacheDel ∉ (updateBroadcast now callerId broadcastId u db).2.2) ∧
    (∀ callerId broadcastId (db : List Broadcast),
       Effect.cacheDel ∉ (deleteBroadcast callerId broadcastId db).2.2) ∧
    (∀ now (db : List Broadcast),
       Effect.cacheDel ∉ (cleanupExpiredBroadcasts now db).2) := by
  refine ⟨?_, ?_, ?_, ?_⟩
  · intro now creator newId t d e db h
    by_cases he : e ≤ now
    · simp [createBroadcast, he] at h
    · simp [createBroadcast, he]
  · intro now callerId broadcastId u db
    rcases updateBroadcast_trace now callerId broadcastId u db with h | ⟨b, h⟩ <;>
      simp [h]
  · intro callerId broadcastId db
    unfold deleteBroadcast
    cases hf : findById db broadcastId with
    | none => simp
    | some b =>
      simp only
      split <;> simp
  · intro now db
    simp [cleanupExpiredBroadcasts]

/-- C1, witness for the amended theorem: a concrete successful Create
whose trace deletes the cache key, and a concrete Update whose trace does
not. -/
theorem C1_witness :
    Effect.cacheDel ∈ (createBroadcast 0 7 1 "t" "d" 5 []).2.2 ∧
    Effect.cacheDel ∉
      (updateBroadcast 10 7 1 ⟨none, some "d2", none⟩
        [⟨1, "t", "d", 7, 0, 100, .active, []⟩]).2.2 :=
  ⟨C1_listing_writes_cache.1 0 7 1 "t" "d" 5 [] (by decide),
   C1_listing_writes_cache.2.1 10 7 1 ⟨none, some "d2", none⟩
     [⟨1, "t", "d", 7, 0, 100, .active, []⟩]⟩

/-! ## C10 — no self-join guard -/

/-- C10: RequestJoin has no self-join guard — when the broadcast is
active with a future deadline and its creator has no join request on it
yet, a RequestJoin by the creator succeeds, appends a pending JoinRequest
for the creator, and enqueues a notification event naming the creator as
requester. -/
theorem C10_self_join_allowed (now broadcastId : Nat) (db : List Broadcast)
    (b : Broadcast) (h : findById db broadcastId = some b)
    (hact : b.status = .active) (hfut : now < b.expiresAt)
    (hnone : ∀ r ∈ b.joinRequests, r.user ≠ b.creator) :
    joinBroadcast now b.creator broadcastId db =
      (.success,
       saveDoc db
         { b with joinRequests := b.joinRequests ++ [⟨b.creator, .pending⟩] },
       [.save { b with joinRequests := b.joinRequests ++ [⟨b.creator, .pending⟩] },
        .enqueue broadcastId b.creator]) := by
  unfold joinBroadcast
  rw [h]
  dsimp only
  have h1 : ¬(b.expiresAt ≤ now ∨ b.status = .expired) := by
    push_neg
    refine ⟨by omega, by rw [hact]; intro hc; cases hc⟩
  rw [if_neg h1]
  have h2 : b.joinRequests.find? (fun r => r.user == b.creator) = none := by
    rw [List.find?_eq_none]
    intro r hr
    simpa using hnone r hr
  rw [h2]

/-- C10, witness: the creator (user 7) of an active, unexpired broadcast
self-joins successfully; the stored broadcast gains the pending request
and the notification event names user 7. -/
theorem C10_witness :
    joinBroadcast 10 7 1 [⟨1, "t", "d", 7, 0, 100, .active, []⟩] =
      (.success, [⟨1, "t", "d", 7, 0, 100, .active, [⟨7, .pending⟩]⟩],
       [.save ⟨1, "t", "d", 7, 0, 100, .active, [⟨7, .pending⟩]⟩,
        .enqueue 1 7]) := by
  have h := C10_self_join_allowed 10 1
    [⟨1, "t", "d", 7, 0, 100, .active, []⟩]
    ⟨1, "t", "d", 7, 0, 100, .active, []⟩
    (by decide) (by decide) (by decide) (by decide)
  exact h

/-! ## C2 — RequestJoin outcome characterization -/

/-- C2: for an existing broadcast, RequestJoin fails Expired exactly when
the status is not active or the deadline is not strictly future; when the
broadcast is live, it fails AlreadyRequested exactly when the caller
already has a JoinRequest (of any status); otherwise it appends a pending
JoinRequest for the caller. -/
theorem C2_requestJoin_outcomes (now userId broadcastId : Nat)
    (db : List Broadcast) (b : Broadcast)
    (h : findById db broadcastId = some b) :
    ((joinBroadcast now userId broadcastId db).1 = .expired ↔
      (b.status ≠ .active ∨ b.expiresAt ≤ now)) ∧
    ((b.status = .active ∧ now < b.expiresAt) →
      ((joinBroadcast now userId broadcastId db).1 = .alreadyRequested ↔
        ∃ r ∈ b.joinRequests, r.user = userId)) ∧
    ((b.status = .active ∧ now < b.expiresAt ∧
        ∀ r ∈ b.joinRequests, r.user ≠ userId) →
      joinBroadcast now userId broadcastId db =
        (.success,
         saveDoc db
           { b with joinRequests := b.joinRequests ++ [⟨userId, .pending⟩] },
         [.save { b with joinRequests := b.joinRequests ++ [⟨userId, .pending⟩] },
          .enqueue broadcastId userId])) := by
  unfold joinBroadcast
  rw [h]
  dsimp only
  by_cases hexp : b.expiresAt ≤ now ∨ b.status = .expired
  · rw [if_pos hexp]
    refine ⟨?_, ?_, ?_⟩
    · simp only [true_iff]
      rcases hexp with h1 | h1
      · exact Or.inr h1
      · exact Or.inl (by rw [h1]; intro hc; cases hc)
    · rintro ⟨hact, hfut⟩
      rcases hexp with h1 | h1
      · omega
      · rw [hact] at h1; cases h1
    · rintro ⟨hact, hfut, _⟩
      rcases hexp with h1 | h1
      · omega
      · rw [hact] at h1; cases h1
  · rw [if_neg hexp]
    push_neg at hexp
    have hact : b.status = .active := by
      cases hs : b.status
      · rfl
      · exact absurd hs hexp.2
    cases hfind : b.joinRequests.find? (fun r => r.user == userId) with
    | some r =>
      refine ⟨?_, ?_, ?_⟩
      · constructor
        · intro hc; cases hc
        · rintro (hc | hc)
          · exact absurd hact hc
          · omega
      · intro _
        simp only [true_iff]
        refine ⟨r, List.mem_of_find?_eq_some hfind, ?_⟩
        have hp := List.find?_some hfind
        simpa using hp
      · rintro ⟨_, _, hnone⟩
        have hmem := List.mem_of_find?_eq_some hfind
        have hu : r.user = userId := by
          have hp := List.find?_some hfind
          simpa using hp
        exact absurd hu (hnone r hmem)
    | none =>
      refine ⟨?_, ?_, ?_⟩
      · constructor
        · intro hc; cases hc
        · rintro (hc | hc)
          · exact absurd hact hc
          · omega
      · intro _
        constructor
        · intro hc; cases hc
        · rintro ⟨r, hr, hu⟩
          have hr' := List.find?_eq_none.mp hfind r hr
          simp [hu] at hr'
      · intro _
        rfl

/-- C2, witness: an expired-deadline broadcast rejects with Expired; a
live broadcast with a rejected earlier request from user 2 rejects a new
request by user 2 with AlreadyRequested; a live broadcast with no
request from user 2 accepts and appends the pending request. -/
theorem C2_witness :
    (joinBroadcast 20 2 1 [⟨1, "t", "d", 7, 0, 10, .active, []⟩]).1 =
      .expired ∧
    (joinBroadcast 5 2 1
        [⟨1, "t", "d", 7, 0, 10, .active, [⟨2, .rejected⟩]⟩]).1 =
      .alreadyRequested ∧
    joinBroadcast 5 2 1 [⟨1, "t", "d", 7, 0, 10, .active, []⟩] =
      (.success, [⟨1, "t", "d", 7, 0, 10, .active, [⟨2, .pending⟩]⟩],
       [.save ⟨1, "t", "d", 7, 0, 10, .active, [⟨2, .pending⟩]⟩,
        .enqueue 1 2]) :=
  ⟨(C2_requestJoin_outcomes 20 2 1 [⟨1, "t", "d", 7, 0, 10, .active, []⟩]
      ⟨1, "t", "d", 7, 0, 10, .active, []⟩ (by decide)).1.mpr (by decide),
   ((C2_requestJoin_outcomes 5 2 1
      [⟨1, "t", "d", 7, 0, 10, .active, [⟨2, .rejected⟩]⟩]
      ⟨1, "t", "d", 7, 0, 10, .active, [⟨2, .rejected⟩]⟩ (by decide)).2.1
      (by decide)).mpr (by decide),
   (C2_requestJoin_outcomes 5 2 1 [⟨1, "t", "d", 7, 0, 10, .active, []⟩]
      ⟨1, "t", "d", 7, 0, 10, .active, []⟩ (by decide)).2.2 (by decide)⟩

/-! ## C9 — persistence precedes enqueue -/

/-- C9: in every run of RequestJoin, the effect trace is empty unless the
call succeeds; on success it is exactly a document save followed by the
enqueue of `{broadcastId, requesterId}`, with the saved document (the
one persisted in the store) already holding the caller's pending join
request; and every enqueue effect in a trace belongs to a successful call
and names that call's broadcast and requester. -/
theorem C9_persist_before_enqueue (now userId broadcastId : Nat)
    (db : List Broadcast) :
    ((joinBroadcast now userId broadcastId db).1 ≠ .success →
       (joinBroadcast now userId broadcastId db).2.2 = []) ∧
    ((joinBroadcast now userId broadcastId db).1 = .success →
       ∃ b', (joinBroadcast now userId broadcastId db).2.2 =
           [Effect.save b', Effect.enqueue broadcastId userId] ∧
         (joinBroadcast now userId broadcastId db).2.1 = saveDoc db b' ∧
         ⟨userId, JStatus.pending⟩ ∈ b'.joinRequests) ∧
    (∀ bid uid, Effect.enqueue bid uid ∈
         (joinBroadcast now userId broadcastId db).2.2 →
       (joinBroadcast now userId broadcastId db).1 = .success ∧
       bid = broadcastId ∧ uid = userId) := by
  unfold joinBroadcast
  cases hf : findById db broadcastId with
  | none => simp
  | some b =>
    dsimp only
    by_cases hexp : b.expiresAt ≤ now ∨ b.status = .expired
    · rw [if_pos hexp]; simp
    · rw [if_neg hexp]
      cases hfind : b.joinRequests.find? (fun r => r.user == userId) with
      | some r => simp
      | none =>
        dsimp only
        refine ⟨fun hc => absurd rfl hc, fun _ => ⟨_, rfl, rfl, by simp⟩,
          fun bid uid hmem => ⟨rfl, ?_⟩⟩
        simp only [List.mem_cons, List.mem_singleton] at hmem
        rcases hmem with hmem | hmem | hmem
        · cases hmem
        · cases hmem; exact ⟨rfl, rfl⟩
        · cases hmem

/-- C9, witness: on a concrete successful join the trace is the save of
the updated document followed by the enqueue; on a concrete expired join
the trace is empty. -/
theorem C9_witness :
    (∃ b', (joinBroadcast 5 2 1
          [⟨1, "t", "d", 7, 0, 10, .active, []⟩]).2.2 =
        [Effect.save b', Effect.enqueue 1 2] ∧
      (joinBroadcast 5 2 1 [⟨1, "t", "d", 7, 0, 10, .active, []⟩]).2.1 =
        saveDoc [⟨1, "t", "d", 7, 0, 10, .active, []⟩] b' ∧
      ⟨2, JStatus.pending⟩ ∈ b'.joinRequests) ∧
    (joinBroadcast 20 2 1 [⟨1, "t", "d", 7, 0, 10, .active, []⟩]).2.2 = [] :=
  ⟨(C9_persist_before_enqueue 5 2 1
      [⟨1, "t", "d", 7, 0, 10, .active, []⟩]).2.1 (by decide),
   (C9_persist_before_enqueue 20 2 1
      [⟨1, "t", "d", 7, 0, 10, .active, []⟩]).1 (by decide)⟩

/-! ## C4 — join-request decisions are not exactly-once -/

/-- C4, counterexample: the creator decides user 2's request to accepted,
then decides it again to rejected; both calls succeed and the stored
status ends as rejected — the accepted decision was not final. -/
theorem C4_counterexample :
    (updateJoinRequest 7 1 2 .accepted
        [⟨1, "t", "d", 7, 0, 100, .active, [⟨2, .pending⟩]⟩]).1 =
      .success ∧
    (updateJoinRequest 7 1 2 .rejected
        (updateJoinRequest 7 1 2 .accepted
          [⟨1, "t", "d", 7, 0, 100, .active, [⟨2, .pending⟩]⟩]).2.1).1 =
      .success ∧
    (findById
        (updateJoinRequest 7 1 2 .rejected
          (updateJoinRequest 7 1 2 .accepted
            [⟨1, "t", "d", 7, 0, 100, .active, [⟨2, .pending⟩]⟩]).2.1).2.1
        1).map Broadcast.joinRequests = some [⟨2, .rejected⟩] := by
  decide

/-- Every position of `setFirstRequestStatus` at an occurring user holds
the written status at the first match. -/
theorem setFirstRequestStatus_hits (rs : List JoinRequest) (uid : Nat)
    (st : JStatus) (h : ∃ r ∈ rs, r.user = uid) :
    ∃ r' ∈ setFirstRequestStatus rs uid st,
      r'.user = uid ∧ r'.status = st := by
  induction rs with
  | nil => simp at h
  | cons r rest ih =>
    unfold setFirstRequestStatus
    by_cases hu : r.user = uid
    · rw [if_pos (by simp [hu])]
      exact ⟨{ r with status := st }, List.mem_cons_self _ _, hu, rfl⟩
    · rw [if_neg (by simp [hu])]
      rcases h with ⟨r0, hr0, hu0⟩
      rcases List.mem_cons.mp hr0 with rfl | hmem
      · exact absurd hu0 hu
      · rcases ih ⟨r0, hmem, hu0⟩ with ⟨r', hm, hp⟩
        exact ⟨r', List.mem_cons_of_mem _ hm, hp⟩

/-- C4, amended: DecideJoinRequest by the creator on an existing request
always succeeds and overwrites the first matching request's status with
the new decision, whatever status — pending, accepted or rejected — it
held before; there is no exactly-once guard. -/
theorem C4_decide_overwrites (callerId broadcastId requesterId : Nat)
    (d : Decision) (db : List Broadcast) (b : Broadcast)
    (h : findById db broadcastId = some b) (hc : b.creator = callerId)
    (hr : ∃ r ∈ b.joinRequests, r.user = requesterId) :
    updateJoinRequest callerId broadcastId requesterId d db =
      (.success,
       saveDoc db { b with joinRequests :=
         setFirstRequestStatus b.joinRequests requesterId d.toJStatus },
       [.save { b with joinRequests :=
         setFirstRequestStatus b.joinRequests requesterId d.toJStatus }]) ∧
    ∃ r' ∈ setFirstRequestStatus b.joinRequests requesterId d.toJStatus,
      r'.user = requesterId ∧ r'.status = d.toJStatus := by
  refine ⟨?_, setFirstRequestStatus_hits _ _ _ hr⟩
  unfold updateJoinRequest
  rw [h]
  dsimp only
  rw [if_neg (by simp [hc])]
  cases hfind : b.joinRequests.find? (fun r => r.user == requesterId) with
  | none =>
    exfalso
    rcases hr with ⟨r0, hr0, hu0⟩
    have hr' := List.find?_eq_none.mp hfind r0 hr0
    simp [hu0] at hr'
  | some r => rfl

/-- C4, witness: re-deciding an already-accepted request to rejected
succeeds and stores rejected. -/
theorem C4_witness :
    updateJoinRequest 7 1 2 .rejected
        [⟨1, "t", "d", 7, 0, 100, .active, [⟨2, .accepted⟩]⟩] =
      (.success, [⟨1, "t", "d", 7, 0, 100, .active, [⟨2, .rejected⟩]⟩],
       [.save ⟨1, "t", "d", 7, 0, 100, .active, [⟨2, .rejected⟩]⟩]) :=
  (C4_decide_overwrites 7 1 2 .rejected
    [⟨1, "t", "d", 7, 0, 100, .active, [⟨2, .accepted⟩]⟩]
    ⟨1, "t", "d", 7, 0, 100, .active, [⟨2, .accepted⟩]⟩
    (by decide) (by decide) (by decide)).1

/-! ## C5 — uniqueness of join requests per (broadcast, user) -/

/-- C5, counterexample: there is no uniqueness constraint backing the
duplicate check — two RequestJoin calls by user 2 racing between their
read and their commit both pass the check against the same snapshot and
both append, leaving two stored JoinRequests for the (broadcast, user)
pair; neither caller receives AlreadyRequested. -/
theorem C5_counterexample :
    joinBroadcastCheck 10 2 1 [⟨1, "t", "d", 7, 0, 100, .active, []⟩] =
      some ⟨2, .pending⟩ ∧
    (findById
        (joinBroadcastCommit 1 ⟨2, .pending⟩
          (joinBroadcastCommit 1 ⟨2, .pending⟩
            [⟨1, "t", "d", 7, 0, 100, .active, []⟩])) 1).map
        (fun b => (b.joinRequests.filter (fun r => r.user == 2)).length) =
      some 2 := by
  decide

/-- C5, amended: the store declares no uniqueness constraint on
(broadcast, user) and overlapping calls can store a duplicate; the
at-most-one invariant is maintained only by the duplicate check, i.e.
under sequential (non-interleaved) execution of RequestJoin. -/
theorem C5_sequential_at_most_one (now userId broadcastId : Nat)
    (db : List Broadcast) (hinv : atMostOnePerUser db) :
    atMostOnePerUser (joinBroadcast now userId broadcastId db).2.1 := by
  unfold joinBroadcast
  cases hf : findById db broadcastId with
  | none => exact hinv
  | some b =>
    dsimp only
    by_cases hexp : b.expiresAt ≤ now ∨ b.status = .expired
    · rw [if_pos hexp]; exact hinv
    · rw [if_neg hexp]
      cases hfind : b.joinRequests.find? (fun r => r.user == userId) with
      | some r => exact hinv
      | none =>
        dsimp only
        have hb := (findById_mem db broadcastId b hf).1
        have hnone : ∀ r ∈ b.joinRequests, r.user ≠ userId := by
          intro r hr
          have hr' := List.find?_eq_none.mp hfind r hr
          simpa using hr'
        intro x hx u
        rcases List.mem_map.mp hx with ⟨a, ha, hax⟩
        by_cases hid : (a.id == b.id) = true
        · rw [if_pos hid] at hax
          subst hax
          dsimp only
          rw [List.filter_append, List.length_append]
          by_cases hu : userId = u
          · subst hu
            have h1 : b.joinRequests.filter (fun r => r.user == userId) = [] := by
              rw [List.filter_eq_nil_iff]
              intro r hr
              simpa using hnone r hr
            rw [h1]
            simp
          · have h2 : List.filter (fun r => r.user == u)
                [(⟨userId, .pending⟩ : JoinRequest)] = [] := by
              simp [hu]
            rw [h2]
            have h3 := hinv b hb u
            simpa using h3
        · rw [if_neg hid] at hax
          subst hax
          exact hinv a ha u

/-- C5, witness: a sequential join on a store satisfying the at-most-one
invariant yields a store still satisfying it. -/
theorem C5_witness :
    atMostOnePerUser
      (joinBroadcast 5 2 1 [⟨1, "t", "d", 7, 0, 10, .active, []⟩]).2.1 :=
  C5_sequential_at_most_one 5 2 1 [⟨1, "t", "d", 7, 0, 10, .active, []⟩]
    (by intro x hx u; simp only [List.mem_singleton] at hx; subst hx; simp)

/-! ## Update lemmas -/

/-- The in-memory document after the three conditional field assignments
of `updateBroadcast`: each of `title`, `description`, `expiresAt` is
overwritten exactly when supplied. -/
def applyUpdateData (u : UpdateData) (b : Broadcast) : Broadcast :=
  { b with
    title := u.title.getD b.title
    description := u.description.getD b.description
    expiresAt := u.expiresAt.getD b.expiresAt }

theorem updateBroadcast_success_shape (now callerId broadcastId : Nat)
    (u : UpdateData) (db : List Broadcast) (b : Broadcast)
    (h : findById db broadcastId = some b) (hcr : b.creator = callerId)
    (hfut : ∀ e, u.expiresAt = some e → now < e) :
    updateBroadcast now callerId broadcastId u db =
      (.success, saveDoc db (applyUpdateData u b),
       [.save (applyUpdateData u b)]) := by
  unfold updateBroadcast
  rw [h]
  dsimp only
  rw [if_neg (by simp [hcr])]
  rcases u with ⟨ut, ud, ue⟩
  cases ut <;> cases ud <;> cases ue <;>
    simp only [applyUpdateData, Option.getD_none, Option.getD_some] <;>
    try rfl
  all_goals rw [if_neg (by have hlt := hfut _ rfl; omega)]

theorem updateBroadcast_success_creator (now callerId broadcastId : Nat)
    (u : UpdateData) (db : List Broadcast) (b : Broadcast)
    (h : findById db broadcastId = some b)
    (hs : (updateBroadcast now callerId broadcastId u db).1 = .success) :
    b.creator = callerId := by
  unfold updateBroadcast at hs
  rw [h] at hs
  dsimp only at hs
  by_cases hcr : b.creator ≠ callerId
  · rw [if_pos hcr] at hs
    cases hs
  · exact not_ne_iff.mp hcr

theorem updateBroadcast_success_future (now callerId broadcastId : Nat)
    (u : UpdateData) (db : List Broadcast) (e : Nat)
    (he : u.expiresAt = some e)
    (hs : (updateBroadcast now callerId broadcastId u db).1 = .success) :
    now < e := by
  unfold updateBroadcast at hs
  rcases hf : findById db broadcastId with _ | b
  · rw [hf] at hs; cases hs
  · rw [hf] at hs
    dsimp only at hs
    by_cases hcr : b.creator ≠ callerId
    · rw [if_pos hcr] at hs; cases hs
    · rw [if_neg hcr] at hs
      rw [he] at hs
      dsimp only at hs
      by_cases hle : e ≤ now
      · rw [if_pos hle] at hs; cases hs
      · omega

theorem updateBroadcast_cases (now callerId broadcastId : Nat) (u : UpdateData)
    (db : List Broadcast) :
    (∃ b', updateBroadcast now callerId broadcastId u db =
         (.success, saveDoc db b', [.save b']) ∧ b'.id = broadcastId) ∨
    updateBroadcast now callerId broadcastId u db =
      ((updateBroadcast now callerId broadcastId u db).1, db, []) := by
  unfold updateBroadcast
  rcases hf : findById db broadcastId with _ | b
  · right; rfl
  · have hbid := (findById_mem db broadcastId b hf).2
    dsimp only
    by_cases hcr : b.creator ≠ callerId
    · rw [if_pos hcr]
      right; rfl
    · rw [if_neg hcr]
      rcases u with ⟨ut, ud, ue⟩
      cases ut <;> cases ud <;> cases ue <;> dsimp only
      all_goals try exact Or.inl ⟨_, rfl, hbid⟩
      all_goals rename_i e
      all_goals by_cases hle : e ≤ now
      all_goals first
        | (rw [if_pos hle]; exact Or.inr rfl)
        | (rw [if_neg hle]; exact Or.inl ⟨_, rfl, hbid⟩)

/-! ## C6 — expiry must be strictly future at create and update -/

/-- C6: Create with a strictly future expiresAt inserts the active record
with that deadline; Create with a non-future expiresAt fails InThePast
leaving the store untouched; Update supplying a non-future expiresAt can
never succeed, persists nothing (and is exactly InThePast when the
broadcast exists and the caller is its creator); a successful Update that
supplied expiresAt stored a deadline strictly greater than the time of
the operation. -/
theorem C6_expiry_strictly_future :
    (∀ now creator newId : Nat, ∀ t d : String, ∀ e : Nat,
       ∀ db : List Broadcast, now < e →
       createBroadcast now creator newId t d e db =
         (.success, db ++ [⟨newId, t, d, creator, now, e, .active, []⟩],
          [.save ⟨newId, t, d, creator, now, e, .active, []⟩, .cacheDel])) ∧
    (∀ now creator newId : Nat, ∀ t d : String, ∀ e : Nat,
       ∀ db : List Broadcast, e ≤ now →
       createBroadcast now creator newId t d e db = (.inThePast, db, [])) ∧
    (∀ now callerId broadcastId : Nat, ∀ u : UpdateData,
       ∀ db : List Broadcast, ∀ e : Nat,
       u.expiresAt = some e → e ≤ now →
       (updateBroadcast now callerId broadcastId u db).1 ≠ .success ∧
       (updateBroadcast now callerId broadcastId u db).2.1 = db) ∧
    (∀ now callerId broadcastId : Nat, ∀ u : UpdateData,
       ∀ db : List Broadcast, ∀ e : Nat, ∀ b : Broadcast,
       u.expiresAt = some e → e ≤ now →
       findById db broadcastId = some b → b.creator = callerId →
       updateBroadcast now callerId broadcastId u db = (.inThePast, db, [])) ∧
    (∀ now callerId broadcastId : Nat, ∀ u : UpdateData,
       ∀ db : List Broadcast, ∀ e : Nat,
       u.expiresAt = some e →
       (updateBroadcast now callerId broadcastId u db).1 = .success →
       now < e ∧
       ∃ b', findById (updateBroadcast now callerId broadcastId u db).2.1
           broadcastId = some b' ∧ b'.expiresAt = e) := by
  refine ⟨?_, ?_, ?_, ?_, ?_⟩
  · intro now creator newId t d e db hlt
    unfold createBroadcast
    rw [if_neg (by omega)]
  · intro now creator newId t d e db hle
    unfold createBroadcast
    rw [if_pos hle]
  · intro now callerId broadcastId u db e he hle
    constructor
    · intro hs
      have hlt :=
        updateBroadcast_success_future now callerId broadcastId u db e he hs
      omega
    · rcases updateBroadcast_cases now callerId broadcastId u db with
        ⟨b', hb', _⟩ | hsame
      · exfalso
        have hs : (updateBroadcast now callerId broadcastId u db).1 =
            .success := by
          rw [hb']
        have hlt :=
          updateBroadcast_success_future now callerId broadcastId u db e he hs
        omega
      · rw [hsame]
  · intro now callerId broadcastId u db e b he hle hf hcr
    unfold updateBroadcast
    rw [hf]
    dsimp only
    rw [if_neg (by simp [hcr])]
    rw [he]
    dsimp only
    rw [if_pos hle]
  · intro now callerId broadcastId u db e he hs
    refine ⟨updateBroadcast_success_future now callerId broadcastId u db e he hs,
      ?_⟩
    rcases hf : findById db broadcastId with _ | b
    · exfalso
      unfold updateBroadcast at hs
      rw [hf] at hs
      cases hs
    · have hcr :=
        updateBroadcast_success_creator now callerId broadcastId u db b hf hs
      have hfut : ∀ e', u.expiresAt = some e' → now < e' :=
        fun e' he' =>
          updateBroadcast_success_future now callerId broadcastId u db e' he' hs
      rw [updateBroadcast_success_shape now callerId broadcastId u db b hf hcr
        hfut]
      dsimp only
      refine ⟨applyUpdateData u b,
        findById_saveDoc_self db broadcastId b _ hf
          (findById_mem db broadcastId b hf).2, ?_⟩
      simp [applyUpdateData, he]

/-- C6, witness: a future-dated Create succeeds and stores deadline 5 at
time 0; the same Create at time 10 fails InThePast; an Update supplying
deadline 5 at time 10 fails InThePast leaving the store unchanged. -/
theorem C6_witness :
    createBroadcast 0 7 1 "t" "d" 5 [] =
      (.success, [⟨1, "t", "d", 7, 0, 5, .active, []⟩],
       [.save ⟨1, "t", "d", 7, 0, 5, .active, []⟩, .cacheDel]) ∧
    createBroadcast 10 7 1 "t" "d" 5 [] = (.inThePast, [], []) ∧
    updateBroadcast 10 7 1 ⟨none, none, some 5⟩
        [⟨1, "t", "d", 7, 0, 100, .active, []⟩] =
      (.inThePast, [⟨1, "t", "d", 7, 0, 100, .active, []⟩], []) :=
  ⟨C6_expiry_strictly_future.1 0 7 1 "t" "d" 5 [] (by decide),
   C6_expiry_strictly_future.2.1 10 7 1 "t" "d" 5 [] (by decide),
   C6_expiry_strictly_future.2.2.2.1 10 7 1 ⟨none, none, some 5⟩
     [⟨1, "t", "d", 7, 0, 100, .active, []⟩] 5
     ⟨1, "t", "d", 7, 0, 100, .active, []⟩ (by decide) (by decide)
     (by decide) (by decide)⟩

/-! ## C7 — Update touches only supplied fields -/

/-- C7: Update by a non-creator is Forbidden and leaves the store
untouched; a successful Update stores a document agreeing with the old
one on id, creator, createdAt, status and joinRequests, overwriting
exactly the supplied fields among title, description and expiresAt; and
every other document of the store is left unchanged. -/
theorem C7_update_frame (now callerId broadcastId : Nat) (u : UpdateData)
    (db : List Broadcast) (b : Broadcast)
    (h : findById db broadcastId = some b) :
    (b.creator ≠ callerId →
       updateBroadcast now callerId broadcastId u db = (.forbidden, db, [])) ∧
    ((updateBroadcast now callerId broadcastId u db).1 = .success →
       ∃ b', findById (updateBroadcast now callerId broadcastId u db).2.1
             broadcastId = some b' ∧
         b'.id = b.id ∧ b'.creator = b.creator ∧
         b'.createdAt = b.createdAt ∧ b'.status = b.status ∧
         b'.joinRequests = b.joinRequests ∧
         (u.title = none → b'.title = b.title) ∧
         (∀ t, u.title = some t → b'.title = t) ∧
         (u.description = none → b'.description = b.description) ∧
         (∀ d, u.description = some d → b'.description = d) ∧
         (u.expiresAt = none → b'.expiresAt = b.expiresAt) ∧
         (∀ e, u.expiresAt = some e → b'.expiresAt = e)) ∧
    (∀ j, ¬ j = broadcastId →
       findById (updateBroadcast now callerId broadcastId u db).2.1 j =
         findById db j) := by
  refine ⟨?_, ?_, ?_⟩
  · intro hcr
    unfold updateBroadcast
    rw [h]
    dsimp only
    rw [if_pos hcr]
  · intro hs
    have hcr :=
      updateBroadcast_success_creator now callerId broadcastId u db b h hs
    have hfut : ∀ e, u.expiresAt = some e → now < e :=
      fun e he =>
        updateBroadcast_success_future now callerId broadcastId u db e he hs
    rw [updateBroadcast_success_shape now callerId broadcastId u db b h hcr
      hfut]
    dsimp only
    refine ⟨applyUpdateData u b,
      findById_saveDoc_self db broadcastId b _ h
        (findById_mem db broadcastId b h).2,
      rfl, rfl, rfl, rfl, rfl, ?_, ?_, ?_, ?_, ?_, ?_⟩
    · intro ht; simp [applyUpdateData, ht]
    · intro t ht; simp [applyUpdateData, ht]
    · intro hd; simp [applyUpdateData, hd]
    · intro d hd; simp [applyUpdateData, hd]
    · intro he; simp [applyUpdateData, he]
    · intro e he; simp [applyUpdateData, he]
  · intro j hj
    rcases updateBroadcast_cases now callerId broadcastId u db with
      ⟨b', hb', hid⟩ | hsame
    · rw [hb']
      dsimp only
      exact findById_saveDoc_ne db b' j (by rw [hid]; exact hj)
    · rw [hsame]

/-- C7, witness: user 2 updating user 7's broadcast is Forbidden with the
store unchanged; user 7 updating broadcast 1 leaves broadcast 2
untouched. -/
theorem C7_witness :
    updateBroadcast 10 2 1 ⟨some "x", none, none⟩
        [⟨1, "t", "d", 7, 0, 100, .active, []⟩] =
      (.forbidden, [⟨1, "t", "d", 7, 0, 100, .active, []⟩], []) ∧
    findById
        (updateBroadcast 10 7 1 ⟨some "x", none, none⟩
          [⟨1, "t", "d", 7, 0, 100, .active, []⟩,
           ⟨2, "u", "v", 8, 0, 100, .active, []⟩]).2.1 2 =
      findById
        [⟨1, "t", "d", 7, 0, 100, .active, []⟩,
         ⟨2, "u", "v", 8, 0, 100, .active, []⟩] 2 :=
  ⟨(C7_update_frame 10 2 1 ⟨some "x", none, none⟩
      [⟨1, "t", "d", 7, 0, 100, .active, []⟩]
      ⟨1, "t", "d", 7, 0, 100, .active, []⟩ (by decide)).1 (by decide),
   (C7_update_frame 10 7 1 ⟨some "x", none, none⟩
      [⟨1, "t", "d", 7, 0, 100, .active, []⟩,
       ⟨2, "u", "v", 8, 0, 100, .active, []⟩]
      ⟨1, "t", "d", 7, 0, 100, .active, []⟩ (by decide)).2.2 2 (by decide)⟩

/-! ## C8 — the sweeper is exact, frame-respecting and idempotent -/

/-- C8: one sweeper run maps each document pointwise, leaving every field
but status — in particular the joinRequests — untouched, and the
resulting status is expired exactly for documents that were already
expired or whose deadline has passed (so exactly the active-and-due set
is flipped); running the sweep again at the same instant changes
nothing. -/
theorem C8_sweeper (now : Nat) (db : List Broadcast) :
    ((cleanupExpiredBroadcasts now (cleanupExpiredBroadcasts now db).1).1 =
      (cleanupExpiredBroadcasts now db).1) ∧
    (cleanupExpiredBroadcasts now db).1.length = db.length ∧
    (∀ (i : Nat) (hi : i < db.length)
       (hi' : i < (cleanupExpiredBroadcasts now db).1.length),
      ((cleanupExpiredBroadcasts now db).1[i]).joinRequests =
        (db[i]).joinRequests ∧
      ((cleanupExpiredBroadcasts now db).1[i]).id = (db[i]).id ∧
      ((cleanupExpiredBroadcasts now db).1[i]).title = (db[i]).title ∧
      ((cleanupExpiredBroadcasts now db).1[i]).description =
        (db[i]).description ∧
      ((cleanupExpiredBroadcasts now db).1[i]).creator = (db[i]).creator ∧
      ((cleanupExpiredBroadcasts now db).1[i]).createdAt =
        (db[i]).createdAt ∧
      ((cleanupExpiredBroadcasts now db).1[i]).expiresAt =
        (db[i]).expiresAt ∧
      (((cleanupExpiredBroadcasts now db).1[i]).status = .expired ↔
        ((db[i]).status = .expired ∨ (db[i]).expiresAt ≤ now))) := by
  refine ⟨?_, by simp [cleanupExpiredBroadcasts], ?_⟩
  · simp only [cleanupExpiredBroadcasts, List.map_map]
    apply List.map_congr_left
    intro b _
    by_cases hc : b.expiresAt ≤ now ∧ b.status = .active
    · simp only [Function.comp_apply, if_pos hc]
      rw [if_neg (by simp)]
    · simp only [Function.comp_apply, if_neg hc, if_neg hc]
  · intro i hi hi'
    simp only [cleanupExpiredBroadcasts, List.getElem_map]
    by_cases hc : (db[i]).expiresAt ≤ now ∧ (db[i]).status = .active
    · rw [if_pos hc]
      refine ⟨rfl, rfl, rfl, rfl, rfl, rfl, rfl, ?_⟩
      simp only [true_iff]
      exact Or.inr hc.1
    · rw [if_neg hc]
      refine ⟨rfl, rfl, rfl, rfl, rfl, rfl, rfl, ?_⟩
      constructor
      · exact fun hx => Or.inl hx
      · rintro (hx | hx)
        · exact hx
        · push_neg at hc
          cases hs : (db[i]).status
          · exact absurd hs (hc hx)
          · rfl

/-- C8, witness: sweeping a one-document store twice at time 20 equals
sweeping it once, and the sweep preserves the document's join
requests. -/
theorem C8_witness :
    (cleanupExpiredBroadcasts 20
        (cleanupExpiredBroadcasts 20
          [⟨1, "t", "d", 7, 0, 10, .active, [⟨2, .pending⟩]⟩]).1).1 =
      (cleanupExpiredBroadcasts 20
        [⟨1, "t", "d", 7, 0, 10, .active, [⟨2, .pending⟩]⟩]).1 ∧
    ((cleanupExpiredBroadcasts 20
        [⟨1, "t", "d", 7, 0, 10, .active, [⟨2, .pending⟩]⟩]).1.get
          ⟨0, by decide⟩).joinRequests =
      ((([⟨1, "t", "d", 7, 0, 10, .active, [⟨2, .pending⟩]⟩] :
          List Broadcast)).get ⟨0, by decide⟩).joinRequests :=
  ⟨(C8_sweeper 20 [⟨1, "t", "d", 7, 0, 10, .active, [⟨2, .pending⟩]⟩]).1,
   ((C8_sweeper 20 [⟨1, "t", "d", 7, 0, 10, .active, [⟨2, .pending⟩]⟩]).2.2 0
     (by decide) (by decide)).1⟩

/-! ## C3 — the TTL index and queryability of expired records -/

/-- C3, counterexample: a broadcast created at time 0 with deadline 10 is
flipped to expired by the sweeper at time 20; its creator then updates
expiresAt to 100 (Update performs no status check), so at time 50 the TTL
reaper does not remove it and GetById still returns it with status
expired — an expired-status broadcast that remains durably queryable
after the reaper has run. -/
theorem C3_counterexample :
    (updateBroadcast 20 7 1 ⟨none, none, some 100⟩
        (cleanupExpiredBroadcasts 20
          (createBroadcast 0 7 1 "t" "d" 10 []).2.1).1).1 = .success ∧
    (getBroadcastDetails
        (ttlReap 50
          (updateBroadcast 20 7 1 ⟨none, none, some 100⟩
            (cleanupExpiredBroadcasts 20
              (createBroadcast 0 7 1 "t" "d" 10 []).2.1).1).2.1)
        1).map Broadcast.status = some .expired := by
  decide

/-- C3, amended: the declared TTL index removes every record whose
current expiresAt has been reached, so after a reaper run every surviving
record's deadline is strictly future. -/
theorem C3_ttl_reaps_passed_deadlines (now : Nat) (db : List Broadcast)
    (b : Broadcast) (hb : b ∈ ttlReap now db) : now < b.expiresAt := by
  unfold ttlReap at hb
  have hp := List.of_mem_filter hb
  simpa using hp

/-- C3, witness: a record surviving the reap at time 20 has a strictly
later deadline. -/
theorem C3_witness :
    (20 : Nat) < (Broadcast.mk 1 "t" "d" 7 0 100 .active []).expiresAt :=
  C3_ttl_reaps_passed_deadlines 20 [⟨1, "t", "d", 7, 0, 100, .active, []⟩]
    ⟨1, "t", "d", 7, 0, 100, .active, []⟩ (by decide)

end SpontaneousBroadcast
